import Mathlib

/-!
Verification of the wsprstats incremental ingestion pipeline
(`src/ingest.py`, `src/dbutils.py`) against its specification.

The Python sources are shallowly embedded: pure helpers become Lean
functions, the SQLite connection becomes an explicit durable/pending
state, the lazy generator `read_spots` becomes a function from the list
of archive lines to the list of yielded records together with a flag
telling whether the stream terminated normally (`true`, StopIteration)
or by raising a parse error (`false`).  The geo resolver `geo.grid2latlon`
is not part of the repository and is taken as an arbitrary pure function
`g : String → C × C`, exactly as the spec treats it (an external pure
collaborator).
-/

namespace Wspr

/-! ## Python `int()` on CSV fields

`read_spots` runs `int(fields[0])`.  We model Python's `int` on the
decimal strings appearing in the archives: an optional minus sign
followed by at least one digit parses to the obvious integer, anything
else raises `ValueError` (modelled by `none`). -/

/-- Value of a nonempty all-digit character list; `none` on empty input
or on any non-digit character. -/
def digitsToNat (l : List Char) : Option Nat :=
  if l = [] then none
  else l.foldl (fun acc c => acc.bind
    (fun n => if c.isDigit then some (10 * n + (c.toNat - 48)) else none)) (some 0)

/-- Python `int(s)` for plain decimal literals: optional sign, then digits. -/
def toIntPy (s : String) : Option Int :=
  match s.data with
  | '-' :: rest => (digitsToNat rest).map (fun n => -(n : Int))
  | l => (digitsToNat l).map (fun n => (n : Int))

/-! ## Records

A source line, after `line.rstrip().split(',')`, is a `List String`.
After geo enrichment a record is the original string fields followed by
four coordinate values produced by the resolver, so a stored record is a
list over `String ⊕ C` where `C` is the resolver's coordinate type. -/

/-- A fully formed spot record as inserted into the `wspr` table:
source CSV fields (`Sum.inl`) plus derived coordinates (`Sum.inr`). -/
abbrev SpotRec (C : Type) := List (String ⊕ C)

/-- Integer value of the `spot_id` column of a stored record: the first
element, which for every record built by `read_spots` is the source
`fields[0]` string, read back as an integer (SQLite stores it in the
INTEGER primary-key column). -/
def recId {C : Type} (r : SpotRec C) : Option Int :=
  match r.head? with
  | some (Sum.inl s) => toIntPy s
  | _ => none

/-- Maximum of a list of integers, `0` when the list is empty: the value
`main` computes from `SELECT MAX(spot_id)` (lines 154-155 of
`src/ingest.py`, `NULL` becomes `0`). -/
def maxIds : List Int → Int
  | [] => 0
  | x :: xs => xs.foldl max x

/-- The ingestion watermark: `MAX(spot_id)` over the store, `0` if the
store is empty or freshly created. -/
def maxSpotId {C : Type} (store : List (SpotRec C)) : Int :=
  maxIds (store.filterMap recId)

/-! ## The spot reader (`read_spots`, src/ingest.py lines 98-106)

```python
def read_spots(filename, start_id=0):
  with gzip.open(filename, 'rt', encoding='UTF-8') as zfd:
    for line in zfd:
      fields = line.rstrip().split(',')
      if int(fields[0]) <= start_id:
        continue
      fields.extend(geo.grid2latlon(fields[3])) # tx
      fields.extend(geo.grid2latlon(fields[7])) # rx
      yield fields
```
-/

/-- Result of processing one archive line inside the generator body. -/
inductive LineResult (C : Type) where
  | skipped : LineResult C
  | spot : SpotRec C → LineResult C
  | err : LineResult C
deriving DecidableEq

/-- One iteration of the `read_spots` loop on the already-split line.
`err` models an uncaught exception: `ValueError` from `int(fields[0])`
or `IndexError` from `fields[3]` / `fields[7]`.  As in the source,
`fields[7]` is looked up after the first `extend`, so it is indexed in
the partially extended list. -/
def parseLine {C : Type} (g : String → C × C) (start_id : Int) (fields : List String) :
    LineResult C :=
  match fields.head? with
  | none => .err
  | some f0 =>
    match toIntPy f0 with
    | none => .err
    | some id =>
      if id ≤ start_id then .skipped
      else
        match fields[3]? with
        | none => .err
        | some tx =>
          let fields2 : SpotRec C :=
            fields.map Sum.inl ++ [Sum.inr (g tx).1, Sum.inr (g tx).2]
          match fields2[7]? with
          | some (Sum.inl rx) => .spot (fields2 ++ [Sum.inr (g rx).1, Sum.inr (g rx).2])
          | _ => .err

/-- The generator `read_spots` consumed to the end: the records it
yields, in file order, paired with `true` when it finished by
`StopIteration` and `false` when it raised a parse error (in which case
no further record is produced). -/
def read_spots {C : Type} (g : String → C × C) (start_id : Int) :
    List (List String) → List (SpotRec C) × Bool
  | [] => ([], true)
  | line :: rest =>
    match parseLine g start_id line with
    | .err => ([], false)
    | .skipped => read_spots g start_id rest
    | .spot r =>
      let p := read_spots g start_id rest
      (r :: p.1, p.2)

/-! ## The storage gateway (`DBConnect`, src/dbutils.py lines 36-54)

The SQLite connection is opened with `isolation_level="DEFERRED"`:
statements accumulate in a pending transaction which becomes durable
only on `commit`.  `DBConnect.__exit__` runs `self.conn.commit();
self.conn.close()` on every exit path, normal or exceptional. -/

/-- An open connection: rows already durable in the table, plus rows
inserted in the current (uncommitted) transaction. -/
structure Conn (R : Type) where
  durable : List R
  pending : List R
deriving DecidableEq

/-- Opening a connection on the current store (`DBConnect.__enter__`). -/
def connect {R : Type} (store : List R) : Conn R := ⟨store, []⟩

/-- The `cursor.executemany(INSERT, bulk)` call: the bulk's rows join the
pending transaction. -/
def executemany {R : Type} (conn : Conn R) (bulk : List R) : Conn R :=
  { conn with pending := conn.pending ++ bulk }

/-- The `conn.commit()` call: pending rows become durable. -/
def commitConn {R : Type} (conn : Conn R) : Conn R :=
  ⟨conn.durable ++ conn.pending, []⟩

/-- The `conn.close()` call: the durable rows survive; an uncommitted
pending transaction would be rolled back. -/
def closeConn {R : Type} (conn : Conn R) : List R := conn.durable

/-- The body of `DBConnect.__exit__` (src/dbutils.py lines 46-48): commit,
then close — executed on every exit path of the `with` block. -/
def dbExit {R : Type} (conn : Conn R) : List R := closeConn (commitConn conn)

/-! ## The import loop (`wspr_import`, src/ingest.py lines 109-125)

```python
def wspr_import(db_name, filename, start_id):
  counter = 0
  wspot = read_spots(filename, start_id)
  with DBConnect(db_name) as conn:
    cursor = conn.cursor()
    try:
      while True:
        bulk = []
        for _ in range(BULK_LENGTH):
          bulk.append(wspot.__next__())
        cursor.executemany(INSERT, bulk)
        counter += len(bulk)
    except StopIteration:
      if bulk:
        cursor.executemany(INSERT, bulk)
        counter += len(bulk)
  logging.info('Records processed %d', counter)
```
-/

/-- Batch size, src/ingest.py line 39. -/
def BULK_LENGTH : Nat := 1000

/-- The sequence of bulks passed to `cursor.executemany`, given the
records the generator produces and whether it ends in `StopIteration`
(`ok = true`) or in a parse error (`ok = false`).  A bulk is flushed as
soon as it reaches `B` records; on `StopIteration` the final partial
bulk is flushed if nonempty; on any other exception the loop is
abandoned and the partial bulk is lost.  (For `B = 0` the Python loop
would never flush; `BULK_LENGTH = 1000`, so that case is unreachable.) -/
def importLoopGo {α : Type} (B : Nat) (bulk : List α) : List α → Bool → List (List α)
  | [], true => if bulk.isEmpty then [] else [bulk]
  | [], false => []
  | x :: xs, ok =>
    let bulk2 := bulk ++ [x]
    if bulk2.length = B then bulk2 :: importLoopGo B [] xs ok
    else importLoopGo B bulk2 xs ok

/-- The executemany call sequence of one `wspr_import` run. -/
def importLoop {α : Type} (B : Nat) (stream : List α) (ok : Bool) : List (List α) :=
  importLoopGo B [] stream ok

/-- Final durable store of one `wspr_import` run: the bulks are
`executemany`'d in order into the scoped connection, and
`DBConnect.__exit__` commits and closes whether the `with` body returned
normally or raised. -/
def wspr_import {C : Type} (B : Nat) (store : List (SpotRec C))
    (stream : List (SpotRec C) × Bool) : List (SpotRec C) :=
  dbExit ((importLoop B stream.1 stream.2).foldl executemany (connect store))

/-- The `counter` value: incremented by `len(bulk)` at each
`executemany`; it is the number logged by `Records processed %d` when
the run completes normally. -/
def importCounter {C : Type} (B : Nat) (stream : List (SpotRec C) × Bool) : Nat :=
  ((importLoop B stream.1 stream.2).map List.length).sum

/-- The watermark-then-import slice of `main` (src/ingest.py lines
147-160): a fresh database gets `last_id = 0`, an existing one gets
`MAX(spot_id)` with `NULL` read as `0`; both coincide with `maxSpotId`.
Then `wspr_import(DB_NAME, filename, start_id=last_id)` runs. -/
def runIngest {C : Type} (g : String → C × C) (store : List (SpotRec C))
    (lines : List (List String)) : List (SpotRec C) :=
  wspr_import BULK_LENGTH store (read_spots g (maxSpotId store) lines)

/-! ## Schema creation (`SQL_TABLE` / `create_db`, src/dbutils.py lines 5-34, 57-60)

`SQL_TABLE` is one script: `CREATE TABLE IF NOT EXISTS wspr (...)`,
four plain `CREATE INDEX` statements (no `IF NOT EXISTS`), and two
`PRAGMA`s.  `create_db` runs it through `cursor.executescript`, which
executes the statements in order and raises on the first failing one.
SQLite semantics: `CREATE TABLE IF NOT EXISTS` is a no-op when the table
exists; a plain `CREATE INDEX` raises `index <name> already exists` when
the index exists; a `PRAGMA` just sets its setting. -/

/-- One statement of the schema script. -/
inductive SqlStmt where
  | createTableIfNotExists : String → SqlStmt
  | createIndex : String → String → SqlStmt
  | pragma : String → SqlStmt
deriving DecidableEq

/-- Database schema state: whether the `wspr` table exists, which index
names exist, which pragma settings have been applied. -/
structure Schema where
  hasTable : Bool
  indexes : List String
  pragmas : List String
deriving DecidableEq

/-- A database file that does not exist yet: no table, no indexes. -/
def freshSchema : Schema := ⟨false, [], []⟩

/-- The `SQL_TABLE` script of src/dbutils.py lines 5-34.  Only the
`CREATE TABLE` statement carries `IF NOT EXISTS`. -/
def SQL_TABLE : List SqlStmt :=
  [ .createTableIfNotExists "wspr",
    .createIndex "idx_time" "wspr",
    .createIndex "idx_tx_call" "wspr",
    .createIndex "idx_rx_call" "wspr",
    .createIndex "idx_band" "wspr",
    .pragma "synchronous = EXTRA",
    .pragma "journal_mode = WAL" ]

/-- SQLite execution of one schema statement. -/
def execStmt (s : Schema) : SqlStmt → Except String Schema
  | .createTableIfNotExists _ => .ok (if s.hasTable then s else { s with hasTable := true })
  | .createIndex idx _ =>
    if idx ∈ s.indexes then .error ("index " ++ idx ++ " already exists")
    else .ok { s with indexes := s.indexes ++ [idx] }
  | .pragma p => .ok { s with pragmas := s.pragmas ++ [p] }

/-- The `cursor.executescript` call: statements run in order, the first
error aborts the script and propagates. -/
def executescript (s : Schema) : List SqlStmt → Except String Schema
  | [] => .ok s
  | stmt :: rest =>
    match execStmt s stmt with
    | .ok s2 => executescript s2 rest
    | .error e => .error e

/-- The `create_db` function (src/dbutils.py lines 57-60). -/
def create_db (s : Schema) : Except String Schema :=
  executescript s SQL_TABLE

/-- The schema-ensuring step of `main` (src/ingest.py lines 147-148):
`create_db` runs only when the database file does not exist yet. -/
def mainEnsureSchema (dbFileExists : Bool) (s : Schema) : Except String Schema :=
  if dbFileExists then .ok s else create_db s

/-! ## The run timer (`Timer`, src/ingest.py lines 41-65)

`Timer.__exit__` logs the elapsed time split into hours, minutes,
seconds and milliseconds, and appends an `items per second` rate exactly
when `self.nb_lines` is truthy.  We measure elapsed wall-clock time in
integral milliseconds; the rate `nb_lines / elapsed` is the exact
rational. -/

/-- The content of the message `Timer.__exit__` logs. -/
structure TimerReport where
  title : String
  hours : Nat
  minutes : Nat
  seconds : Nat
  milliseconds : Nat
  rate : Option ℚ
deriving DecidableEq

/-- The report built by `Timer.__exit__` for a timer constructed as
`Timer(title, nb_lines)` whose block ran for `elapsedMs` milliseconds. -/
def timerReport (title : String) (nb_lines : Nat) (elapsedMs : Nat) : TimerReport :=
  let milliseconds := elapsedMs % 1000
  let totalSec := elapsedMs / 1000
  let minute0 := totalSec / 60
  let sec := totalSec % 60
  { title := title
    hours := minute0 / 60
    minutes := minute0 % 60
    seconds := sec
    milliseconds := milliseconds
    rate := if nb_lines = 0 then none
            else some ((nb_lines : ℚ) * 1000 / (elapsedMs : ℚ)) }

/-- Number of lines the coordinator hands to the timer wrapping the
call of `wspr_import`: `main` writes `with Timer('Import WSPR'):`
(src/ingest.py line 159), leaving `nb_lines` at its default `0`. -/
def importTimerNbLines : Nat := 0

/-- The timer report of the `Import WSPR` phase of `main`. -/
def mainImportReport (elapsedMs : Nat) : TimerReport :=
  timerReport "Import WSPR" importTimerNbLines elapsedMs

/-! ## The archive locator and fetcher (`download_archive`, src/ingest.py lines 68-95)

```python
WSPR_FILE = "wsprspots-{:4d}-{:02d}.csv.gz"

def get_size(filename):
  if not os.path.exists(filename):
    return 0
  return os.stat(filename).st_size

def download_archive(path, month=None, force=False):
  today = datetime.now()
  if not month:
    month = today.month
  target_file = WSPR_FILE.format(today.year, month)
  ...
  try:
    with urlopen(url) as resp:
      if not force and resp.length <= get_size(target_path):
        logging.info('No new data in %s', url)
        return None
      logging.info('Downloading %s', url)
      ... stream body to target_path ...
  except URLError as err:
    logging.info('HTTP Error: "%s"', err)
    return None
  return target_path
```
-/

/-- Python `"{:4d}".format(n)`: decimal digits, space-padded on the left
to width 4. -/
def format4d (n : Nat) : String :=
  let s := toString n
  if s.length < 4 then String.mk (List.replicate (4 - s.length) ' ') ++ s else s

/-- Python `"{:02d}".format(n)`: decimal digits, zero-padded on the left
to width 2. -/
def format02d (n : Nat) : String :=
  let s := toString n
  if s.length < 2 then String.mk (List.replicate (2 - s.length) '0') ++ s else s

/-- The remote archive file name, `WSPR_FILE.format(year, month)`. -/
def WSPR_FILE (year month : Nat) : String :=
  "wsprspots-" ++ format4d year ++ "-" ++ format02d month ++ ".csv.gz"

/-- The month `download_archive` targets: `if not month: month =
today.month` — both a missing argument and a `0` argument (falsy in
Python) fall back to the current month. -/
def effectiveMonth (todayMonth : Nat) (month : Option Nat) : Nat :=
  match month with
  | none => todayMonth
  | some 0 => todayMonth
  | some m => m

/-- The file name `download_archive` targets on a day in year
`todayYear` and month `todayMonth` when asked for `month`.  The year
slot is always filled with `today.year`: the function has no year
parameter. -/
def target_file (todayYear todayMonth : Nat) (month : Option Nat) : String :=
  WSPR_FILE todayYear (effectiveMonth todayMonth month)

/-- State of the world the fetcher sees: the remote answer to `urlopen`
(`none` means `URLError` raised at open — unreachable host, 404, ...;
`some L` means a response with `resp.length = L`), whether streaming
the body to disk succeeds (`false` means `URLError` mid-transfer), and
the size of the local archive copy (`none` when `os.path.exists` is
false). -/
structure World where
  contentLength : Option Nat
  bodyOk : Bool
  localSize : Option Nat

/-- The `get_size` function (src/ingest.py lines 68-71): a missing local
file counts as size 0. -/
def get_size (localSize : Option Nat) : Nat :=
  match localSize with
  | none => 0
  | some s => s

/-- The `download_archive` function: `none` models `return None` (either
`No new data` or a logged, swallowed `URLError`), `some p` models
returning the downloaded target path. -/
def download_archive (w : World) (path : String) (todayYear todayMonth : Nat)
    (month : Option Nat := none) (force : Bool := false) : Option String :=
  let target_path := path ++ "/" ++ target_file todayYear todayMonth month
  match w.contentLength with
  | none => none
  | some len =>
    if !force && decide (len ≤ get_size w.localSize) then none
    else if w.bodyOk then some target_path else none

/-- Outcome of one invocation of `main` without `--filename`. -/
inductive RunResult (C : Type) where
  | nothingToImport : RunResult C
  | imported : List (SpotRec C) → Nat → RunResult C

/-- The download-then-import flow of `main` (src/ingest.py lines
136-160): when `download_archive` produces no file, `main` logs the
`Nothing to import` warning and returns normally with nothing processed;
otherwise it computes the watermark and imports the archive, reporting
the processed-record counter. -/
def mainRun {C : Type} (w : World) (path : String) (todayYear todayMonth : Nat)
    (month : Option Nat) (force : Bool) (g : String → C × C)
    (store : List (SpotRec C)) (archive : List (List String)) : RunResult C :=
  match download_archive w path todayYear todayMonth month force with
  | none => .nothingToImport
  | some _ =>
    .imported (runIngest g store archive)
      (importCounter BULK_LENGTH (read_spots g (maxSpotId store) archive))

/-! ## Lemmas about the import loop -/

theorem importLoopGo_flatten_true {α : Type} (B : Nat) :
    ∀ (s bulk : List α), (importLoopGo B bulk s true).flatten = bulk ++ s := by
  intro s
  induction s with
  | nil => intro bulk; cases bulk <;> simp [importLoopGo]
  | cons x xs ih =>
    intro bulk
    simp only [importLoopGo]
    by_cases h : (bulk ++ [x]).length = B
    · simp only [if_pos h, List.flatten_cons, ih]
      simp
    · simp only [if_neg h, ih]
      simp

theorem importLoop_flatten_true {α : Type} (B : Nat) (s : List α) :
    (importLoop B s true).flatten = s := by
  simpa using importLoopGo_flatten_true B s []

theorem importLoopGo_length_true {α : Type} (B : Nat) (hB : B ≠ 0) :
    ∀ (s bulk : List α), bulk.length < B →
      (importLoopGo B bulk s true).length = (bulk.length + s.length + (B - 1)) / B := by
  intro s
  induction s with
  | nil =>
    intro bulk hb
    cases bulk with
    | nil =>
      have h1 : (importLoopGo B ([] : List α) [] true).length = 0 := by simp [importLoopGo]
      rw [h1, eq_comm]
      exact Nat.div_eq_of_lt (by simp only [List.length_nil]; omega)
    | cons y ys =>
      have h1 : (importLoopGo B (y :: ys) ([] : List α) true).length = 1 := by
        simp [importLoopGo]
      simp only [List.length_cons] at hb
      rw [h1, eq_comm]
      apply Nat.div_eq_of_lt_le <;>
        simp only [List.length_cons, List.length_nil] <;> omega
  | cons x xs ih =>
    intro bulk hb
    simp only [importLoopGo]
    by_cases h : (bulk ++ [x]).length = B
    · have hxB : bulk.length + 1 = B := by
        simp only [List.length_append, List.length_cons, List.length_nil] at h; omega
      rw [if_pos h, List.length_cons, ih ([] : List α) (by simp only [List.length_nil]; omega)]
      have h2 : bulk.length + (x :: xs).length + (B - 1) = xs.length + (B - 1) + B := by
        simp only [List.length_cons]; omega
      rw [h2, Nat.add_div_right _ (by omega)]
      simp only [List.length_nil, Nat.zero_add]
    · have hxB : bulk.length + 1 ≠ B := by
        simp only [List.length_append, List.length_cons, List.length_nil] at h; omega
      rw [if_neg h, ih (bulk ++ [x])
        (by simp only [List.length_append, List.length_cons, List.length_nil]; omega)]
      have h2 : (bulk ++ [x]).length + xs.length = bulk.length + (x :: xs).length := by
        simp only [List.length_append, List.length_cons, List.length_nil]; omega
      rw [h2]

theorem importLoop_length_true {α : Type} (B : Nat) (hB : B ≠ 0) (s : List α) :
    (importLoop B s true).length = (s.length + (B - 1)) / B := by
  simpa using importLoopGo_length_true B hB s [] (by simp only [List.length_nil]; omega)

theorem importLoopGo_dropLast_true {α : Type} (B : Nat) :
    ∀ (s bulk b : List α), b ∈ (importLoopGo B bulk s true).dropLast → b.length = B := by
  intro s
  induction s with
  | nil =>
    intro bulk b hb
    cases bulk <;> simp [importLoopGo] at hb
  | cons x xs ih =>
    intro bulk b hb
    simp only [importLoopGo] at hb
    by_cases h : (bulk ++ [x]).length = B
    · rw [if_pos h] at hb
      cases hrec : importLoopGo B ([] : List α) xs true with
      | nil => rw [hrec] at hb; simp at hb
      | cons r rs =>
        rw [hrec, List.dropLast_cons_of_ne_nil (by simp)] at hb
        rcases List.mem_cons.1 hb with rfl | hb2
        · simpa using h
        · exact ih [] b (by rw [hrec]; exact hb2)
    · rw [if_neg h] at hb
      exact ih (bulk ++ [x]) b hb

theorem importLoop_dropLast_true {α : Type} (B : Nat) (s : List α) :
    ∀ b ∈ (importLoop B s true).dropLast, b.length = B := by
  intro b hb
  exact importLoopGo_dropLast_true B s [] b hb

theorem importLoopGo_getLast_true {α : Type} (B : Nat) (hB : B ≠ 0) :
    ∀ (s bulk : List α), bulk.length < B → bulk ++ s ≠ [] →
      ∃ last, (importLoopGo B bulk s true).getLast? = some last ∧
        last.length = if (bulk.length + s.length) % B = 0 then B
                      else (bulk.length + s.length) % B := by
  intro s
  induction s with
  | nil =>
    intro bulk hb hne
    rw [List.append_nil] at hne
    cases bulk with
    | nil => exact absurd rfl hne
    | cons y ys =>
      refine ⟨y :: ys, by simp [importLoopGo], ?_⟩
      simp only [List.length_cons] at hb ⊢
      rw [List.length_nil, Nat.add_zero, Nat.mod_eq_of_lt (by omega), if_neg (by omega)]
  | cons x xs ih =>
    intro bulk hb _
    simp only [importLoopGo]
    by_cases h : (bulk ++ [x]).length = B
    · have hxB : bulk.length + 1 = B := by
        simp only [List.length_append, List.length_cons, List.length_nil] at h; omega
      rw [if_pos h]
      cases xs with
      | nil =>
        refine ⟨bulk ++ [x], by simp [importLoopGo], ?_⟩
        have hmod : bulk.length + (x :: ([] : List α)).length = B := by
          simp only [List.length_cons, List.length_nil]; omega
        rw [hmod, Nat.mod_self, if_pos rfl]
        simp only [List.length_append, List.length_cons, List.length_nil]
        omega
      | cons x2 xs2 =>
        obtain ⟨last, hlast, hlen⟩ :=
          ih ([] : List α) (by simp only [List.length_nil]; omega) (by simp)
        cases hrec : importLoopGo B ([] : List α) (x2 :: xs2) true with
        | nil =>
          exfalso
          have hfl := importLoopGo_flatten_true B (x2 :: xs2) ([] : List α)
          rw [hrec] at hfl
          simp at hfl
        | cons r rs =>
          rw [hrec] at hlast
          refine ⟨last, ?_, ?_⟩
          · rw [List.getLast?_cons_cons]
            exact hlast
          · rw [hlen]
            have hmod : (bulk.length + (x :: x2 :: xs2).length) % B
                = (([] : List α).length + (x2 :: xs2).length) % B := by
              simp only [List.length_cons, List.length_nil, Nat.zero_add]
              have he : bulk.length + (xs2.length + 1 + 1) = xs2.length + 1 + B := by omega
              rw [he, Nat.add_mod_right]
            rw [hmod]
    · have hxB : bulk.length + 1 ≠ B := by
        simp only [List.length_append, List.length_cons, List.length_nil] at h; omega
      rw [if_neg h]
      obtain ⟨last, hlast, hlen⟩ := ih (bulk ++ [x])
        (by simp only [List.length_append, List.length_cons, List.length_nil]; omega)
        (by simp)
      refine ⟨last, hlast, ?_⟩
      rw [hlen]
      have he : (bulk ++ [x]).length + xs.length = bulk.length + (x :: xs).length := by
        simp only [List.length_append, List.length_cons, List.length_nil]; omega
      rw [he]

theorem importLoop_getLast_true {α : Type} (B : Nat) (hB : B ≠ 0) (s : List α) (hs : s ≠ []) :
    ∃ last, (importLoop B s true).getLast? = some last ∧
      last.length = if s.length % B = 0 then B else s.length % B := by
  simpa using importLoopGo_getLast_true B hB s []
    (by simp only [List.length_nil]; omega) (by simpa using hs)

theorem importLoopGo_false_length {α : Type} (B : Nat) :
    ∀ (s bulk b : List α), b ∈ importLoopGo B bulk s false → b.length = B := by
  intro s
  induction s with
  | nil => intro bulk b hb; simp [importLoopGo] at hb
  | cons x xs ih =>
    intro bulk b hb
    simp only [importLoopGo] at hb
    by_cases h : (bulk ++ [x]).length = B
    · rw [if_pos h] at hb
      rcases List.mem_cons.1 hb with rfl | hb2
      · exact h
      · exact ih [] b hb2
    · rw [if_neg h] at hb
      exact ih (bulk ++ [x]) b hb

/-! ## Lemmas about the storage gateway and the watermark -/

theorem foldl_executemany {R : Type} :
    ∀ (batches : List (List R)) (c : Conn R),
      batches.foldl executemany c = ⟨c.durable, c.pending ++ batches.flatten⟩ := by
  intro batches
  induction batches with
  | nil => intro c; simp
  | cons b bs ih =>
    intro c
    simp only [List.foldl_cons, ih, executemany, List.flatten_cons, List.append_assoc]

theorem wspr_import_eq {C : Type} (B : Nat) (store : List (SpotRec C))
    (stream : List (SpotRec C) × Bool) :
    wspr_import B store stream = store ++ (importLoop B stream.1 stream.2).flatten := by
  rw [wspr_import, foldl_executemany]
  simp [connect, dbExit, commitConn, closeConn]

theorem flatten_mem_decomp {α : Type} :
    ∀ (L : List (List α)) (b : List α), b ∈ L → ∃ pre post, L.flatten = pre ++ b ++ post := by
  intro L
  induction L with
  | nil => intro b hb; simp at hb
  | cons l ls ih =>
    intro b hb
    rcases List.mem_cons.1 hb with rfl | hb2
    · exact ⟨[], ls.flatten, by simp⟩
    · obtain ⟨pre, post, hpp⟩ := ih b hb2
      exact ⟨l ++ pre, post, by simp [hpp]⟩

theorem le_foldl_max (acc : Int) : ∀ (l : List Int), acc ≤ l.foldl max acc := by
  intro l
  induction l generalizing acc with
  | nil => simp
  | cons y ys ih =>
    calc acc ≤ max acc y := le_max_left _ _
    _ ≤ (y :: ys).foldl max acc := by simpa using ih (max acc y)

theorem mem_le_foldl_max (a acc : Int) :
    ∀ (l : List Int), a ∈ l → a ≤ l.foldl max acc := by
  intro l
  induction l generalizing acc with
  | nil => intro h; simp at h
  | cons y ys ih =>
    intro h
    rcases List.mem_cons.1 h with rfl | h2
    · calc a ≤ max acc a := le_max_right _ _
      _ ≤ (a :: ys).foldl max acc := by simpa using le_foldl_max (max acc a) ys
    · simpa using ih (max acc y) h2

theorem maxIds_le_of_mem {a : Int} {l : List Int} (h : a ∈ l) : a ≤ maxIds l := by
  cases l with
  | nil => simp at h
  | cons x xs =>
    rcases List.mem_cons.1 h with rfl | h2
    · exact le_foldl_max a xs
    · exact mem_le_foldl_max a x xs h2

theorem maxIds_le_append (l l2 : List Int) (h : l ≠ []) : maxIds l ≤ maxIds (l ++ l2) := by
  cases l with
  | nil => exact absurd rfl h
  | cons x xs =>
    show maxIds (x :: xs) ≤ maxIds (x :: (xs ++ l2))
    simp only [maxIds, List.foldl_append]
    exact le_foldl_max _ l2

theorem recId_le_maxSpotId {C : Type} {r : SpotRec C} {store : List (SpotRec C)} {i : Int}
    (hr : r ∈ store) (hi : recId r = some i) : i ≤ maxSpotId store :=
  maxIds_le_of_mem (List.mem_filterMap.2 ⟨r, hr, hi⟩)

theorem maxSpotId_le_append {C : Type} (store new : List (SpotRec C))
    (h : ∀ r ∈ new, ∃ i, recId r = some i ∧ maxSpotId store < i) :
    maxSpotId store ≤ maxSpotId (store ++ new) := by
  unfold maxSpotId
  rw [List.filterMap_append]
  cases hstore : store.filterMap recId with
  | nil =>
    simp only [List.nil_append]
    cases hnew : new.filterMap recId with
    | nil => simp [maxIds]
    | cons j js =>
      have hj : j ∈ new.filterMap recId := by rw [hnew]; exact List.mem_cons_self _ _
      obtain ⟨r, hrmem, hrid⟩ := List.mem_filterMap.1 hj
      obtain ⟨i, hi, hlt⟩ := h r hrmem
      rw [hi] at hrid
      obtain rfl : i = j := by injection hrid
      have hlt2 : maxIds (List.filterMap recId store) < i := hlt
      rw [hstore] at hlt2
      have hle : i ≤ maxIds (i :: js) := maxIds_le_of_mem (by rw [← hnew]; exact hj)
      exact le_trans (le_of_lt hlt2) hle
  | cons x xs => exact maxIds_le_append (x :: xs) _ (by simp)

theorem importLoopGo_false_flatten {α : Type} (B : Nat) :
    ∀ (s bulk : List α), ∃ t, (importLoopGo B bulk s false).flatten ++ t = bulk ++ s := by
  intro s
  induction s with
  | nil => intro bulk; exact ⟨bulk, by simp [importLoopGo]⟩
  | cons x xs ih =>
    intro bulk
    simp only [importLoopGo]
    by_cases h : (bulk ++ [x]).length = B
    · rw [if_pos h]
      obtain ⟨t, ht⟩ := ih []
      refine ⟨t, ?_⟩
      simp only [List.flatten_cons, List.append_assoc, ht]
      simp
    · rw [if_neg h]
      obtain ⟨t, ht⟩ := ih (bulk ++ [x])
      refine ⟨t, ?_⟩
      rw [ht]
      simp

/-! ## Lemmas about the spot reader -/

/-- The integer in the leading `spot_id` field of a line (0 when absent
or unparsable; only used under `WellFormedLine`). -/
def lineId (l : List String) : Int := (l.head?.bind toIntPy).getD 0

/-- A line the generator body can process without raising: the leading
field parses as an integer and there are at least 8 fields (real WSPR
archive lines have 15). -/
def WellFormedLine (l : List String) : Prop :=
  (l.head?.bind toIntPy).isSome ∧ 8 ≤ l.length

instance (l : List String) : Decidable (WellFormedLine l) := by
  unfold WellFormedLine; infer_instance

/-- Specification-side description of an enriched record (spec §4.3,
§8 round-trip property): the source fields with the resolver's pair for
`fields[3]` (transmitter grid) and then for `fields[7]` (receiver grid)
appended. -/
def enrichSpec {C : Type} (g : String → C × C) (l : List String) : SpotRec C :=
  l.map Sum.inl ++ [Sum.inr (g (l.getD 3 "")).1, Sum.inr (g (l.getD 3 "")).2,
                    Sum.inr (g (l.getD 7 "")).1, Sum.inr (g (l.getD 7 "")).2]

theorem parseLine_spot {C : Type} (g : String → C × C) (start_id : Int) (l : List String)
    (hwf : WellFormedLine l) (hgt : start_id < lineId l) :
    parseLine g start_id l = .spot (enrichSpec g l) := by
  obtain ⟨hid, hlen⟩ := hwf
  cases hh : l.head? with
  | none => rw [hh] at hid; simp at hid
  | some f0 =>
    rw [hh] at hid
    cases hi : toIntPy f0 with
    | none => simp [hi] at hid
    | some id =>
      have hlid : lineId l = id := by simp [lineId, hh, hi]
      rw [hlid] at hgt
      have h3lt : 3 < l.length := by omega
      have h7lt : 7 < l.length := by omega
      have h3 : l[3]? = some (l.getD 3 "") := by
        rw [List.getD_eq_getElem?_getD, List.getElem?_eq_getElem h3lt]
        rfl
      have h7 : (l.map (Sum.inl : String → String ⊕ C) ++
          [Sum.inr (g (l.getD 3 "")).1, Sum.inr (g (l.getD 3 "")).2])[7]?
          = some (Sum.inl (l.getD 7 "")) := by
        rw [List.getElem?_append_left (by simpa using h7lt), List.getElem?_map,
          List.getElem?_eq_getElem h7lt]
        simp [List.getElem?_eq_getElem h7lt]
      simp only [parseLine, hh, hi, if_neg (by omega : ¬ id ≤ start_id), h3, h7]
      rw [enrichSpec]
      simp

theorem parseLine_skipped {C : Type} (g : String → C × C) (start_id : Int) (l : List String)
    (hid : (l.head?.bind toIntPy).isSome) (hle : lineId l ≤ start_id) :
    parseLine g start_id l = .skipped := by
  cases hh : l.head? with
  | none => rw [hh] at hid; simp at hid
  | some f0 =>
    rw [hh] at hid
    cases hi : toIntPy f0 with
    | none => simp [hi] at hid
    | some id =>
      have hlid : lineId l = id := by simp [lineId, hh, hi]
      rw [hlid] at hle
      simp only [parseLine, hh, hi, if_pos hle]

theorem parseLine_spot_inv {C : Type} (g : String → C × C) (start_id : Int)
    (l : List String) (r : SpotRec C) (h : parseLine g start_id l = .spot r) :
    ∃ f0 i tx rx, l.head? = some f0 ∧ toIntPy f0 = some i ∧ start_id < i ∧
      l[3]? = some tx ∧ l[7]? = some rx ∧
      r = l.map Sum.inl ++
        [Sum.inr (g tx).1, Sum.inr (g tx).2, Sum.inr (g rx).1, Sum.inr (g rx).2] := by
  cases hh : l.head? with
  | none => simp [parseLine, hh] at h
  | some f0 =>
    cases hi : toIntPy f0 with
    | none => simp [parseLine, hh, hi] at h
    | some id =>
      by_cases hle : id ≤ start_id
      · simp [parseLine, hh, hi, hle] at h
      · cases h3 : l[3]? with
        | none => simp [parseLine, hh, hi, hle, h3] at h
        | some tx =>
          cases h7 : (l.map (Sum.inl : String → String ⊕ C) ++
              [Sum.inr (g tx).1, Sum.inr (g tx).2])[7]? with
          | none => simp [parseLine, hh, hi, hle, h3, h7] at h
          | some v =>
            cases v with
            | inr c => simp [parseLine, hh, hi, hle, h3, h7] at h
            | inl rx =>
              simp only [parseLine, hh, hi, if_neg hle, h3, h7,
                LineResult.spot.injEq] at h
              have h7lt : 7 < l.length := by
                by_contra hcon
                push_neg at hcon
                have hge : (l.map (Sum.inl : String → String ⊕ C)).length ≤ 7 := by
                  simpa using hcon
                rw [List.getElem?_append_right hge] at h7
                rcases hk : 7 - (l.map (Sum.inl : String → String ⊕ C)).length
                  with _ | _ | k <;> rw [hk] at h7 <;> simp at h7
              have h7l : l[7]? = some rx := by
                rw [List.getElem?_append_left (by simpa using h7lt), List.getElem?_map,
                  List.getElem?_eq_getElem h7lt] at h7
                rw [List.getElem?_eq_getElem h7lt]
                simpa using h7
              refine ⟨f0, id, tx, rx, rfl, hi, by omega, rfl, h7l, ?_⟩
              rw [← h]
              simp

theorem read_spots_eq_filter {C : Type} (g : String → C × C) (s : Int) :
    ∀ (lines : List (List String)), (∀ l ∈ lines, WellFormedLine l) →
      read_spots g s lines
        = ((lines.filter fun l => decide (s < lineId l)).map (enrichSpec g), true) := by
  intro lines
  induction lines with
  | nil => intro _; rfl
  | cons l ls ih =>
    intro hwf
    have hl := hwf l (List.mem_cons_self _ _)
    have hrest := ih (fun l2 h2 => hwf l2 (List.mem_cons_of_mem _ h2))
    by_cases hgt : s < lineId l
    · have hstep : read_spots g s (l :: ls)
          = (enrichSpec g l :: (read_spots g s ls).1, (read_spots g s ls).2) := by
        simp only [read_spots, parseLine_spot g s l hl hgt]
      rw [hstep, hrest]
      rw [List.filter_cons_of_pos (by simpa using hgt)]
      simp
    · have hstep : read_spots g s (l :: ls) = read_spots g s ls := by
        simp only [read_spots, parseLine_skipped g s l hl.1 (by omega)]
      rw [hstep, hrest]
      rw [List.filter_cons_of_neg (by simpa using hgt)]

theorem read_spots_yield {C : Type} (g : String → C × C) (s : Int) :
    ∀ (lines : List (List String)) (r : SpotRec C), r ∈ (read_spots g s lines).1 →
      ∃ l ∈ lines, parseLine g s l = .spot r := by
  intro lines
  induction lines with
  | nil => intro r hr; simp [read_spots] at hr
  | cons l ls ih =>
    intro r hr
    cases hp : parseLine g s l with
    | err => simp only [read_spots, hp] at hr; simp at hr
    | skipped =>
      simp only [read_spots, hp] at hr
      obtain ⟨l2, hmem, hl2⟩ := ih r hr
      exact ⟨l2, List.mem_cons_of_mem _ hmem, hl2⟩
    | spot r2 =>
      simp only [read_spots, hp] at hr
      rcases List.mem_cons.1 hr with rfl | hr2
      · exact ⟨l, List.mem_cons_self _ _, hp⟩
      · obtain ⟨l2, hmem, hl2⟩ := ih r hr2
        exact ⟨l2, List.mem_cons_of_mem _ hmem, hl2⟩

theorem recId_spot {C : Type} {g : String → C × C} {s : Int} {l : List String}
    {r : SpotRec C} (h : parseLine g s l = .spot r) : ∃ i, recId r = some i ∧ s < i := by
  obtain ⟨f0, i, tx, rx, hh, hi, hlt, _, _, rfl⟩ := parseLine_spot_inv g s l r h
  refine ⟨i, ?_, hlt⟩
  cases l with
  | nil => simp at hh
  | cons a as =>
    have : a = f0 := by simpa using hh
    subst this
    simp [recId, hi]

theorem read_spots_yield_id {C : Type} (g : String → C × C) (s : Int)
    (lines : List (List String)) (r : SpotRec C) (hr : r ∈ (read_spots g s lines).1) :
    ∃ i, recId r = some i ∧ s < i := by
  obtain ⟨l, _, hl⟩ := read_spots_yield g s lines r hr
  exact recId_spot hl

theorem recId_enrichSpec {C : Type} (g : String → C × C) (l : List String)
    (hwf : WellFormedLine l) : recId (enrichSpec g l) = some (lineId l) := by
  obtain ⟨hid, _⟩ := hwf
  cases l with
  | nil => simp at hid
  | cons a as =>
    cases ht : toIntPy a with
    | none => simp [ht] at hid
    | some i => simp [recId, enrichSpec, lineId, ht]

theorem wspr_import_true {C : Type} (B : Nat) (store ys : List (SpotRec C)) :
    wspr_import B store (ys, true) = store ++ ys := by
  rw [wspr_import_eq]
  show store ++ (importLoop B ys true).flatten = store ++ ys
  rw [importLoop_flatten_true]

theorem runIngest_eq {C : Type} (g : String → C × C) (store : List (SpotRec C))
    (lines : List (List String)) (hwf : ∀ l ∈ lines, WellFormedLine l) :
    runIngest g store lines
      = store ++
        (lines.filter fun l => decide (maxSpotId store < lineId l)).map (enrichSpec g) := by
  rw [runIngest, read_spots_eq_filter g _ lines hwf, wspr_import_true]

theorem importCounter_true {C : Type} (B : Nat) (ys : List (SpotRec C)) :
    importCounter B (ys, true) = ys.length := by
  show ((importLoop B ys true).map List.length).sum = ys.length
  rw [← List.length_flatten, importLoop_flatten_true]

theorem mem_importLoop_false_flatten {α : Type} (B : Nat) (ys : List α) (r : α)
    (hr : r ∈ (importLoop B ys false).flatten) : r ∈ ys := by
  obtain ⟨t, ht⟩ := importLoopGo_false_flatten B ys []
  have h2 : (importLoop B ys false).flatten ++ t = ys := by simpa using ht
  rw [← h2]
  exact List.mem_append_left _ hr

theorem filterMap_recId_map_enrich {C : Type} (g : String → C × C) :
    ∀ (lines : List (List String)), (∀ l ∈ lines, WellFormedLine l) →
      (lines.map (enrichSpec g)).filterMap recId = lines.map lineId := by
  intro lines
  induction lines with
  | nil => intro _; rfl
  | cons l ls ih =>
    intro hall
    simp only [List.map_cons, List.filterMap_cons,
      recId_enrichSpec g l (hall l (List.mem_cons_self _ _)),
      ih (fun b hb => hall b (List.mem_cons_of_mem _ hb))]

/-! ## Concrete data used in witnesses -/

/-- A concrete geo resolver for examples. -/
def gEx : String → Int × Int := fun _ => (7, 9)

/-- A well-formed 15-field archive line (the real WSPR CSV layout) with
the given leading spot id. -/
def lineEx (id : String) : List String :=
  [id, "1357023600", "K6ABC", "CM87", "-21", "7.040100", "W6XYZ", "DM04",
   "37", "0", "500", "120", "7", "1.3", "1"]

/-- A three-line archive with ids 10, 11, 12. -/
def linesEx : List (List String) := [lineEx "10", lineEx "11", lineEx "12"]

/-- An archive whose second line is malformed (its leading field does
not parse as an integer). -/
def linesBad : List (List String) := [lineEx "5", ["oops"]]

/-- The record `read_spots` yields for `lineEx "5"` under `gEx`. -/
def recEx5 : SpotRec Int :=
  (lineEx "5").map Sum.inl ++ [Sum.inr 7, Sum.inr 9, Sum.inr 7, Sum.inr 9]

/-- Three abstract records (used only for batch counting). -/
def recsEx3 : List (SpotRec Int) := [[Sum.inl "1"], [Sum.inl "2"], [Sum.inl "3"]]

/-- Five lines with ids 1..5. -/
def linesEx5 : List (List String) :=
  [lineEx "1", lineEx "2", lineEx "3", lineEx "4", lineEx "5"]

/-! ## The claims -/

/-- C1: for an input stream of M records and batch size B = `BULK_LENGTH`
= 1000, the import loop performs exactly ⌈M/B⌉ batch commits through the
storage gateway (`executemany` calls), committing the batches in stream
order as each fills (their concatenation is the stream, so each full
batch is committed as soon as it fills); every batch before the last has
exactly B records, the last commit's batch has `M mod B` records (B when
B divides M), when M = 0 no commit at all is issued, and the run's final
store is the old store followed by the stream. -/
theorem c1_batch_commit_boundary {C : Type} (records : List (SpotRec C))
    (store : List (SpotRec C)) :
    (importLoop BULK_LENGTH records true).length
        = (records.length + (BULK_LENGTH - 1)) / BULK_LENGTH ∧
    (∀ b ∈ (importLoop BULK_LENGTH records true).dropLast, b.length = BULK_LENGTH) ∧
    (importLoop BULK_LENGTH records true).flatten = records ∧
    (records = [] → importLoop BULK_LENGTH records true = []) ∧
    (records ≠ [] → ∃ last, (importLoop BULK_LENGTH records true).getLast? = some last ∧
      last.length = if records.length % BULK_LENGTH = 0 then BULK_LENGTH
                    else records.length % BULK_LENGTH) ∧
    wspr_import BULK_LENGTH store (records, true) = store ++ records := by
  refine ⟨importLoop_length_true BULK_LENGTH (by decide) records,
    importLoop_dropLast_true BULK_LENGTH records,
    importLoop_flatten_true BULK_LENGTH records, ?_, ?_,
    wspr_import_true BULK_LENGTH store records⟩
  · rintro rfl; rfl
  · intro hne
    exact importLoop_getLast_true BULK_LENGTH (by decide) records hne

/-- Witness for C1: a concrete 3-record stream makes one commit whose
batch is the whole stream (3 = 3 mod 1000). -/
theorem c1_witness :
    ∃ last, (importLoop BULK_LENGTH recsEx3 true).getLast? = some last ∧
      last.length = if recsEx3.length % BULK_LENGTH = 0 then BULK_LENGTH
                    else recsEx3.length % BULK_LENGTH :=
  (c1_batch_commit_boundary recsEx3 []).2.2.2.2.1 (by decide)

/-- C2: when the stream aborts with a parse error, the run's final store
still contains every batch committed before the failure (the scoped
connection wrapper commits and closes on the error path too, so earlier
batches are not rolled back): the final store is the old store followed
by exactly the full batches, each committed batch appears contiguously
in it, the watermark does not decrease, and every stored record's id is
at most the new watermark, so a rerun (which starts from the new
watermark) skips all of them. -/
theorem c2_abort_durability {C : Type} (g : String → C × C) (store : List (SpotRec C))
    (lines : List (List String))
    (herr : (read_spots g (maxSpotId store) lines).2 = false) :
    wspr_import BULK_LENGTH store (read_spots g (maxSpotId store) lines)
        = store ++
          (importLoop BULK_LENGTH (read_spots g (maxSpotId store) lines).1 false).flatten ∧
    (∀ b ∈ importLoop BULK_LENGTH (read_spots g (maxSpotId store) lines).1 false,
      b.length = BULK_LENGTH ∧
      ∃ pre post, wspr_import BULK_LENGTH store (read_spots g (maxSpotId store) lines)
          = pre ++ b ++ post) ∧
    maxSpotId store
        ≤ maxSpotId (wspr_import BULK_LENGTH store (read_spots g (maxSpotId store) lines)) ∧
    (∀ r ∈ wspr_import BULK_LENGTH store (read_spots g (maxSpotId store) lines),
      ∀ i, recId r = some i →
        i ≤ maxSpotId (wspr_import BULK_LENGTH store (read_spots g (maxSpotId store) lines))) := by
  have h1 : wspr_import BULK_LENGTH store (read_spots g (maxSpotId store) lines)
      = store ++
        (importLoop BULK_LENGTH (read_spots g (maxSpotId store) lines).1 false).flatten := by
    rw [wspr_import_eq, herr]
  refine ⟨h1, ?_, ?_, ?_⟩
  · intro b hb
    refine ⟨importLoopGo_false_length BULK_LENGTH _ [] b hb, ?_⟩
    obtain ⟨pre, post, hpp⟩ := flatten_mem_decomp _ b hb
    exact ⟨store ++ pre, post, by rw [h1, hpp]; simp [List.append_assoc]⟩
  · rw [h1]
    apply maxSpotId_le_append
    intro r hr
    exact read_spots_yield_id g (maxSpotId store) lines r
      (mem_importLoop_false_flatten _ _ r hr)
  · intro r hr i hi
    exact recId_le_maxSpotId hr hi

/-- Witness for C2: a concrete run over an archive whose second line is
malformed aborts, and the conclusion holds at that input. -/
theorem c2_witness :
    wspr_import BULK_LENGTH ([] : List (SpotRec Int))
        (read_spots gEx (maxSpotId ([] : List (SpotRec Int))) linesBad)
      = [] ++
        (importLoop BULK_LENGTH
          (read_spots gEx (maxSpotId ([] : List (SpotRec Int))) linesBad).1 false).flatten ∧
    (∀ b ∈ importLoop BULK_LENGTH
        (read_spots gEx (maxSpotId ([] : List (SpotRec Int))) linesBad).1 false,
      b.length = BULK_LENGTH ∧
      ∃ pre post, wspr_import BULK_LENGTH ([] : List (SpotRec Int))
          (read_spots gEx (maxSpotId ([] : List (SpotRec Int))) linesBad)
          = pre ++ b ++ post) ∧
    maxSpotId ([] : List (SpotRec Int))
        ≤ maxSpotId (wspr_import BULK_LENGTH ([] : List (SpotRec Int))
            (read_spots gEx (maxSpotId ([] : List (SpotRec Int))) linesBad)) ∧
    (∀ r ∈ wspr_import BULK_LENGTH ([] : List (SpotRec Int))
        (read_spots gEx (maxSpotId ([] : List (SpotRec Int))) linesBad),
      ∀ i, recId r = some i →
        i ≤ maxSpotId (wspr_import BULK_LENGTH ([] : List (SpotRec Int))
            (read_spots gEx (maxSpotId ([] : List (SpotRec Int))) linesBad))) :=
  c2_abort_durability gEx [] linesBad (by decide)

/-- C4: with the remote reachable and reporting length L, the fetcher
downloads if and only if L is strictly greater than the local size or
`force` is set; when L ≤ local size and `force` is unset it returns no
path; a missing local file counts as size 0. -/
theorem c4_freshness {L : Nat} (w : World) (path : String) (todayYear todayMonth : Nat)
    (month : Option Nat) (force : Bool)
    (hL : w.contentLength = some L) (hbody : w.bodyOk = true) :
    ((download_archive w path todayYear todayMonth month force).isSome
        ↔ (force = true ∨ get_size w.localSize < L)) ∧
    (force = false → L ≤ get_size w.localSize →
      download_archive w path todayYear todayMonth month force = none) ∧
    get_size (none : Option Nat) = 0 := by
  refine ⟨?_, ?_, rfl⟩
  · rw [download_archive, hL]
    by_cases hf : force = true
    · simp [hf, hbody]
    · have hf2 : force = false := by revert hf; cases force <;> simp
      by_cases hLS : L ≤ get_size w.localSize
      · simp [hf2, hLS]
      · simp [hf2, hLS, hbody]
        omega
  · intro hf hLS
    rw [download_archive, hL]
    simp [hf, hLS]

/-- Witness for C4: remote length 10, local copy of size 20, no force:
no download happens, and the iff holds at that input. -/
theorem c4_witness :
    ((download_archive ⟨some 10, true, some 20⟩ "/tmp" 2026 10 none false).isSome
        ↔ (false = true ∨ get_size (World.localSize ⟨some 10, true, some 20⟩) < 10)) ∧
    (false = false → 10 ≤ get_size (World.localSize ⟨some 10, true, some 20⟩) →
      download_archive ⟨some 10, true, some 20⟩ "/tmp" 2026 10 none false = none) ∧
    get_size (none : Option Nat) = 0 :=
  c4_freshness ⟨some 10, true, some 20⟩ "/tmp" 2026 10 none false rfl rfl

/-- C5: on a well-formed archive the reader yields exactly the records
whose leading spot id is strictly greater than the watermark, in file
order, each as the geo-enriched version of its line: it never yields a
record with id ≤ `start_id` and never skips one with id > `start_id`. -/
theorem c5_reader_watermark_filter {C : Type} (g : String → C × C) (start_id : Int)
    (lines : List (List String)) (hwf : ∀ l ∈ lines, WellFormedLine l) :
    read_spots g start_id lines
      = ((lines.filter fun l => decide (start_id < lineId l)).map (enrichSpec g), true) :=
  read_spots_eq_filter g start_id lines hwf

/-- Witness for C5: with watermark 10 over the archive with ids 10, 11,
12, the reader yields exactly the (enriched) lines 11 and 12. -/
theorem c5_witness :
    read_spots gEx 10 linesEx
      = ((linesEx.filter fun l => decide ((10 : Int) < lineId l)).map (enrichSpec gEx),
         true) :=
  c5_reader_watermark_filter gEx 10 linesEx (by decide)

/-- The schema state after a successful `create_db` on a fresh database. -/
def schemaAfterCreate : Schema :=
  ⟨true, ["idx_time", "idx_tx_call", "idx_rx_call", "idx_band"],
   ["synchronous = EXTRA", "journal_mode = WAL"]⟩

/-- C3 counterexample: `create_db` is not idempotent.  On a fresh
database it succeeds, but running it again when the table and its
indexes already exist raises `index idx_time already exists`, because
only the `CREATE TABLE` statement of `SQL_TABLE` carries
`IF NOT EXISTS` — the four `CREATE INDEX` statements do not. -/
theorem c3_counterexample :
    create_db freshSchema = .ok schemaAfterCreate ∧
    create_db schemaAfterCreate = .error "index idx_time already exists" := ⟨rfl, rfl⟩

/-- C3 amended: schema creation succeeds on a fresh (absent) database
and its table statement alone is idempotent, but re-running `create_db`
when the indexes already exist fails with `index idx_time already
exists`; the coordinator avoids this by running `create_db` only when
the database file does not exist yet (src/ingest.py lines 147-148). -/
theorem c3_amended :
    create_db freshSchema = .ok schemaAfterCreate ∧
    (∀ s : Schema, s.hasTable = true →
      execStmt s (.createTableIfNotExists "wspr") = .ok s) ∧
    (∀ s : Schema, "idx_time" ∈ s.indexes →
      create_db s = .error "index idx_time already exists") ∧
    (∀ s : Schema, mainEnsureSchema true s = .ok s) := by
  refine ⟨rfl, ?_, ?_, fun s => rfl⟩
  · intro s h
    simp [execStmt, h]
  · intro s h
    unfold create_db SQL_TABLE
    cases hs : s.hasTable <;>
      simp [executescript, execStmt, hs, h]

/-- Witness for C3's amended statement, at a concrete populated schema. -/
theorem c3_witness :
    create_db ⟨true, ["idx_time", "idx_tx_call", "idx_rx_call", "idx_band"],
        ["synchronous = EXTRA", "journal_mode = WAL"]⟩
      = .error "index idx_time already exists" :=
  c3_amended.2.2.1 _ (by decide)

/-- C6: running ingestion twice on the same well-formed archive imports
zero records the second time: after the first run every archive line's
id is at most the new watermark, so the reader yields nothing, the
logged counter is 0 and the store is unchanged; moreover in the
empty-store scenario (with positive ids, as the remote source assigns)
the watermark after the first run equals the archive's maximum spot id. -/
theorem c6_rerun_zero_imports {C : Type} (g : String → C × C)
    (store0 : List (SpotRec C)) (lines : List (List String))
    (hwf : ∀ l ∈ lines, WellFormedLine l) :
    (read_spots g (maxSpotId (runIngest g store0 lines)) lines).1 = [] ∧
    importCounter BULK_LENGTH
      (read_spots g (maxSpotId (runIngest g store0 lines)) lines) = 0 ∧
    runIngest g (runIngest g store0 lines) lines = runIngest g store0 lines ∧
    (store0 = [] → (∀ l ∈ lines, 0 < lineId l) →
      maxSpotId (runIngest g store0 lines) = maxIds (lines.map lineId)) := by
  have hrun := runIngest_eq g store0 lines hwf
  have hnew : ∀ r ∈ (lines.filter fun l => decide (maxSpotId store0 < lineId l)).map
      (enrichSpec g), ∃ i, recId r = some i ∧ maxSpotId store0 < i := by
    intro r hr
    obtain ⟨l, hlmem, rfl⟩ := List.mem_map.1 hr
    have hlf := List.mem_filter.1 hlmem
    exact ⟨lineId l, recId_enrichSpec g l (hwf l hlf.1), by simpa using hlf.2⟩
  have hw01 : maxSpotId store0 ≤ maxSpotId (runIngest g store0 lines) := by
    rw [hrun]
    exact maxSpotId_le_append _ _ hnew
  have hall : ∀ l ∈ lines, lineId l ≤ maxSpotId (runIngest g store0 lines) := by
    intro l hl
    by_cases hgt : maxSpotId store0 < lineId l
    · have hmem : enrichSpec g l ∈ runIngest g store0 lines := by
        rw [hrun]
        exact List.mem_append_right _
          (List.mem_map.2 ⟨l, List.mem_filter.2 ⟨hl, by simpa using hgt⟩, rfl⟩)
      exact recId_le_maxSpotId hmem (recId_enrichSpec g l (hwf l hl))
    · push_neg at hgt
      exact le_trans hgt hw01
  have hfil2 : lines.filter
      (fun l => decide (maxSpotId (runIngest g store0 lines) < lineId l)) = [] := by
    rw [List.filter_eq_nil_iff]
    intro l hl
    have hle := hall l hl
    simp only [decide_eq_true_eq]
    omega
  have hread2 : read_spots g (maxSpotId (runIngest g store0 lines)) lines
      = (([] : List (SpotRec C)), true) := by
    rw [read_spots_eq_filter g _ lines hwf, hfil2]
    rfl
  refine ⟨by rw [hread2], by rw [hread2]; rfl, ?_, ?_⟩
  · rw [runIngest, hread2, wspr_import_true, List.append_nil]
  · intro h0 hpos
    subst h0
    have hfil : lines.filter
        (fun l => decide (maxSpotId ([] : List (SpotRec C)) < lineId l)) = lines := by
      rw [List.filter_eq_self]
      intro l hl
      have hp := hpos l hl
      simp only [decide_eq_true_eq]
      exact hp
    rw [hrun, hfil, List.nil_append]
    unfold maxSpotId
    rw [filterMap_recId_map_enrich g lines hwf]

/-- Witness for C6: the empty store and the archive with ids 10, 11, 12. -/
theorem c6_witness :
    (read_spots gEx (maxSpotId (runIngest gEx ([] : List (SpotRec Int)) linesEx))
        linesEx).1 = [] ∧
    runIngest gEx (runIngest gEx ([] : List (SpotRec Int)) linesEx) linesEx
      = runIngest gEx ([] : List (SpotRec Int)) linesEx ∧
    maxSpotId (runIngest gEx ([] : List (SpotRec Int)) linesEx)
      = maxIds (linesEx.map lineId) := by
  have h := c6_rerun_zero_imports gEx ([] : List (SpotRec Int)) linesEx (by decide)
  exact ⟨h.1, h.2.2.1, h.2.2.2 rfl (by decide)⟩

/-- C7 counterexample: a run that processed a non-zero number of records
(5) whose `Import WSPR` timer report contains no records-per-second
rate: `main` constructs the import timer as `Timer('Import WSPR')`,
leaving `nb_lines` at its default 0, and `Timer.__exit__` only appends
the rate when `nb_lines` is non-zero.  This refutes the claim that
throughput is reported whenever the processed count is non-zero. -/
theorem c7_counterexample :
    importCounter BULK_LENGTH (read_spots gEx 0 linesEx5) = 5 ∧
    (5 : Nat) ≠ 0 ∧
    (mainImportReport 2000).rate = none := ⟨by decide, by decide, rfl⟩

/-- C7 amended: at the end of a successful run the coordinator logs the
exact total record count (the `counter` equals the number of records
streamed) and the elapsed wall-clock time; the timer appends the
records-per-second rate only when constructed with a non-zero
`nb_lines`, and the coordinator constructs the import timer with the
default `nb_lines = 0`, so throughput is never part of the report. -/
theorem c7_amended {C : Type} (yielded : List (SpotRec C)) (elapsedMs : Nat) :
    importCounter BULK_LENGTH (yielded, true) = yielded.length ∧
    (mainImportReport elapsedMs).rate = none ∧
    (∀ title : String, ∀ n : Nat, n ≠ 0 →
      (timerReport title n elapsedMs).rate
        = some ((n : ℚ) * 1000 / (elapsedMs : ℚ))) := by
  refine ⟨importCounter_true _ _, rfl, ?_⟩
  intro title n hn
  simp [timerReport, hn]

/-- Witness for C7's amended statement. -/
theorem c7_witness :
    (timerReport "Import WSPR" 5 2000).rate = some ((5 : ℚ) * 1000 / (2000 : ℚ)) :=
  (c7_amended ([] : List (SpotRec Int)) 2000).2.2 "Import WSPR" 5 (by decide)

/-- C8: every record the reader yields (hence every record stored) is
its source line's fields with exactly four derived values appended: the
resolver's pair for the transmitter grid `fields[3]`, then the
resolver's pair for the receiver grid `fields[7]`; no default or null is
ever substituted for a coordinate. -/
theorem c8_derived_fields {C : Type} (g : String → C × C) (start_id : Int)
    (lines : List (List String)) (r : SpotRec C)
    (hr : r ∈ (read_spots g start_id lines).1) :
    ∃ l ∈ lines, ∃ tx rx, l[3]? = some tx ∧ l[7]? = some rx ∧
      r = l.map Sum.inl ++
        [Sum.inr (g tx).1, Sum.inr (g tx).2, Sum.inr (g rx).1, Sum.inr (g rx).2] := by
  obtain ⟨l, hlmem, hl⟩ := read_spots_yield g start_id lines r hr
  obtain ⟨f0, i, tx, rx, _, _, _, h3, h7, rfl⟩ := parseLine_spot_inv g start_id l r hl
  exact ⟨l, hlmem, tx, rx, h3, h7, rfl⟩

/-- Witness for C8 at a concrete line and record. -/
theorem c8_witness :
    ∃ l ∈ [lineEx "5"], ∃ tx rx, l[3]? = some tx ∧ l[7]? = some rx ∧
      recEx5 = l.map Sum.inl ++
        [Sum.inr (gEx tx).1, Sum.inr (gEx tx).2, Sum.inr (gEx rx).1, Sum.inr (gEx rx).2] :=
  c8_derived_fields gEx 0 [lineEx "5"] recEx5
    (by
      have h : (read_spots gEx 0 [lineEx "5"]).1 = [recEx5] := by decide
      rw [h]
      exact List.mem_cons_self _ _)

/-- C9: any network-layer error (`URLError` at `urlopen` or while
streaming the body) makes `download_archive` log and return `None`, and
`main` then logs `Nothing to import` and returns normally with no record
processed, rather than propagating a crash. -/
theorem c9_network_error {C : Type} (w : World) (path : String)
    (todayYear todayMonth : Nat) (month : Option Nat) (force : Bool)
    (g : String → C × C) (store : List (SpotRec C)) (archive : List (List String))
    (herr : w.contentLength = none ∨ w.bodyOk = false) :
    download_archive w path todayYear todayMonth month force = none ∧
    mainRun w path todayYear todayMonth month force g store archive
      = RunResult.nothingToImport := by
  have hdl : download_archive w path todayYear todayMonth month force = none := by
    rcases herr with h | h
    · simp [download_archive, h]
    · rw [download_archive]
      cases hcl : w.contentLength with
      | none => rfl
      | some L => simp [h]
  exact ⟨hdl, by simp [mainRun, hdl]⟩

/-- Witness for C9: an unreachable remote. -/
theorem c9_witness :
    download_archive ⟨none, true, none⟩ "/tmp" 2026 10 none false = none ∧
    mainRun ⟨none, true, none⟩ "/tmp" 2026 10 none false gEx
        ([] : List (SpotRec Int)) linesEx
      = RunResult.nothingToImport :=
  c9_network_error ⟨none, true, none⟩ "/tmp" 2026 10 none false gEx [] linesEx
    (Or.inl rfl)

/-- C10: the archive locator takes no year input: for any requested
month (0 is falsy in Python and falls back to the current month, like a
missing argument), the targeted remote file name is
`wsprspots-<Y>-<MM>.csv.gz` with Y the calendar year at invocation time
— even for a month later than the current one, it targets that month of
the current year, never of a previous year. -/
theorem c10_current_year (todayYear todayMonth : Nat) (month : Nat) (hm : month ≠ 0) :
    target_file todayYear todayMonth (some month) = WSPR_FILE todayYear month ∧
    target_file todayYear todayMonth none = WSPR_FILE todayYear todayMonth := by
  refine ⟨?_, rfl⟩
  rw [target_file]
  cases month with
  | zero => exact absurd rfl hm
  | succ k => rfl

/-- Witness for C10: in January 2026, requesting December targets
December of 2026 (the current year), not December 2025. -/
theorem c10_witness :
    target_file 2026 1 (some 12) = WSPR_FILE 2026 12 ∧
    WSPR_FILE 2026 12 = "wsprspots-2026-12.csv.gz" :=
  ⟨(c10_current_year 2026 1 12 (by decide)).1, by decide⟩

end Wspr
